import Mathlib

/-!
Shallow embedding of the `icmpp` crate (`src/lib.rs`): the Internet
checksum, the ICMP echo packet codec (`Response::decode`, the buffer
built by `Icmp::send`), and the echo session state (`Icmp`), together
with theorems settling the specification claims.

Bytes are modelled as `Nat` values below 256, byte buffers as
`List Nat`.  Machine-integer truncation (`u16`, `u32`) is made explicit
with `% 65536` and `% 4294967296` at the points where the Rust types
force it.  Rust panics (out-of-bounds indexing) are modelled as
`Option.none`; OS calls (socket creation, `getaddrinfo`, `send_to`,
`recv_from`) are passed in as explicit function parameters.
-/

namespace Icmpp

/-- `pub const DEFDATALEN: usize = 56;` -/
def DEFDATALEN : Nat := 56

/-- `pub const MAXIPLEN: usize = 60;` -/
def MAXIPLEN : Nat := 60

/-- `pub const MAXSEQ: u16 = u16::MAX;` (that is, 65535). -/
def MAXSEQ : Nat := 65535

/-- `u16::from_be_bytes([hi, lo])`. -/
def u16_from_be (hi lo : Nat) : Nat := hi * 256 + lo

/-- `u16::to_be_bytes` / `BytesMut::put_u16`: the two big-endian bytes of
a 16-bit value (the `% 65536` makes the `u16` truncation explicit). -/
def put_u16 (v : Nat) : List Nat := [v % 65536 / 256, v % 256]

/-- `bytes.chunks_exact(2)` turned into big-endian 16-bit words: only
complete 2-byte chunks are produced, a trailing odd byte is dropped. -/
def toWords : List Nat → List Nat
  | a :: b :: rest => u16_from_be a b :: toWords rest
  | _ => []

/-- The accumulation loop of `checksum`: `enumerate().for_each(|(i, buf)|
if i != skip { sum += word })` with `skip = 1`, on a `u32` accumulator
(truncation `% 2^32` explicit).  `i` is the index of the next word. -/
def sumWords : Nat → List Nat → Nat → Nat
  | _, [], acc => acc
  | i, w :: ws, acc =>
    sumWords (i + 1) ws (if i = 1 then acc else (acc + w) % 4294967296)

/-- The carry-folding loop `while sum >> 16 != 0 { sum = (sum >> 16) +
(sum & 0xffff) }`, written with an explicit fuel so that it is
structurally recursive and computable by the kernel.  `foldCarry` below
supplies fuel that provably never runs out, and `foldCarry_eq` recovers
the exact while-loop equation. -/
def foldCarryAux : Nat → Nat → Nat
  | 0, s => s
  | fuel + 1, s => if s >>> 16 = 0 then s else foldCarryAux fuel (s >>> 16 + s % 65536)

/-- The carry-folding loop of `checksum`; the fuel `s` suffices because
each iteration strictly decreases the sum. -/
def foldCarry (s : Nat) : Nat := foldCarryAux s s

/-- `pub fn checksum(bytes: &[u8]) -> u16`: sum the big-endian 16-bit
words skipping word index 1, fold the carries, and return `!sum as u16`.
For `s < 2^32` the bitwise NOT on `u32` is `4294967295 - s`, and the
`as u16` cast is `% 65536`. -/
def checksum (bytes : List Nat) : Nat :=
  (4294967295 - foldCarry (sumWords 0 (toWords bytes) 0)) % 65536

/-- `Response` (`src/lib.rs`): the decoded echo reply. -/
structure Response where
  typ : Nat
  cod : Nat
  sum : Nat
  idt : Nat
  seq : Nat
  dat : List Nat
deriving Repr, DecidableEq

/-- `Response::decode`: fixed-offset parse of the 8-byte header followed
by the payload.  The Rust indexes `bytes[0]`, `bytes[2..4]`, ...,
`bytes[6..8]`, `bytes[8..]`, which panics whenever fewer than 8 bytes
are supplied; the panic is modelled as `none`. -/
def Response.decode (bytes : List Nat) : Option Response :=
  if 8 ≤ bytes.length then
    some { typ := bytes.getD 0 0
           cod := bytes.getD 1 0
           sum := u16_from_be (bytes.getD 2 0) (bytes.getD 3 0)
           idt := u16_from_be (bytes.getD 4 0) (bytes.getD 5 0)
           seq := u16_from_be (bytes.getD 6 0) (bytes.getD 7 0)
           dat := bytes.drop 8 }
  else none

/-- `pub enum Version { V4, V6 }`. -/
inductive Version
  | V4
  | V6
deriving Repr, DecidableEq

/-- A resolved socket address (`socket2::SockAddr`), kept opaque as its
raw bytes; the session only stores and forwards it. -/
abbrev SockAddr := List Nat

/-- `pub struct Icmp`: the echo session state.  The raw socket handle is
an abstract `Nat`. -/
structure Icmp where
  sock : Nat
  dst : SockAddr
  ver : Version
  typ : Nat
  idt : Nat
  seq : Nat
  dat : List Nat
deriving Repr, DecidableEq

/-- Outcome of `Icmp::new`: `ok` for `Ok(Self)`, `sockErr` for a
propagated `Socket::new` error, `resolveFail` for the
`getaddrinfo`-returned-null path (whose `io::Result` the Rust then
`.unwrap()`s). -/
inductive NewOutcome
  | ok (ic : Icmp)
  | sockErr
  | resolveFail
deriving Repr, DecidableEq

/-- `Icmp::new(ver, dst, idt, len)`.  The OS effects are parameters:
`sockNew` is `Socket::new` for the requested family (`none` = error),
`resolve` is the `getaddrinfo` lookup (`none` = null result).  On
success the session starts with `typ = 8`, `seq = 0`, and a zeroed
payload buffer of `len.unwrap_or(DEFDATALEN)` bytes.  `idt` is a `u16`
in the Rust signature, made explicit as `% 65536`. -/
def Icmp.new (ver : Version) (dst : String) (idt : Nat) (len : Option Nat)
    (sockNew : Version → Option Nat)
    (resolve : Version → String → Option SockAddr) : NewOutcome :=
  match sockNew ver with
  | none => .sockErr
  | some sock =>
    match resolve ver dst with
    | none => .resolveFail
    | some a =>
      .ok { sock := sock, dst := a, ver := ver, typ := 8
            idt := idt % 65536, seq := 0
            dat := List.replicate (len.getD DEFDATALEN) 0 }

/-- The buffer built at the start of `Icmp::send` before the checksum is
patched in: type, code 0, zero checksum, identifier, sequence (each
16-bit field big-endian), then the payload.  `typ` is a `u8` (`% 256`
explicit). -/
def encode (typ idt seq : Nat) (dat : List Nat) : List Nat :=
  typ % 256 :: 0 :: (put_u16 0 ++ put_u16 idt ++ put_u16 seq ++ dat)

/-- The checksum-patching step of `Icmp::send`: `buf[2] = sum[0];
buf[3] = sum[1];` with `sum = checksum(&buf).to_be_bytes()`. -/
def patch (buf : List Nat) : List Nat :=
  let sum := checksum buf
  (buf.set 2 (sum % 65536 / 256)).set 3 (sum % 256)

/-- The raw (checksum still zero) request buffer of a session. -/
def Icmp.rawBuf (ic : Icmp) : List Nat := encode ic.typ ic.idt ic.seq ic.dat

/-- The wire bytes `Icmp::send` hands to `sock.send_to`. -/
def Icmp.sendBuf (ic : Icmp) : List Nat := patch ic.rawBuf

/-- `Icmp::serialize_len`: `8 + self.dat.len()`. -/
def Icmp.serialize_len (ic : Icmp) : Nat := 8 + ic.dat.length

/-- `Icmp::send`: build the buffer, patch the checksum, transmit, and on
success step the sequence by `(self.seq + 1) % MAXSEQ`.  The socket
transmit is the parameter `sockSend` (`none` = transport error, which is
propagated before the sequence is touched). -/
def Icmp.send (ic : Icmp) (sockSend : List Nat → SockAddr → Option Nat) :
    Option (Nat × Icmp) :=
  match sockSend ic.sendBuf ic.dst with
  | none => none
  | some len => some (len, { ic with seq := (ic.seq + 1) % MAXSEQ })

/-- A socket transmit that always succeeds, reporting the buffer length
written (what `send_to` returns on success). -/
def okSend : List Nat → SockAddr → Option Nat := fun buf _ => some buf.length

/-- `n` successful calls of `Icmp::send` in a row (the `none` branch is
unreachable under `okSend`). -/
def Icmp.sendIter (ic : Icmp) : Nat → Icmp
  | 0 => ic
  | n + 1 =>
    match (Icmp.sendIter ic n).send okSend with
    | some (_, ic2) => ic2
    | none => Icmp.sendIter ic n

/-- `4 * (dat[0] & 0xf)`: the IPv4 header length in bytes, read from the
low 4 bits of the first byte of the datagram (`& 0xf` is `% 16`). -/
def ipHdrLen (dat : List Nat) : Nat := 4 * (dat.getD 0 0 % 16)

/-- The identifier extracted in the `Icmp::recv` loop:
`u16::from_be_bytes(dat[ip_hdr_len + 4..ip_hdr_len + 6])`. -/
def extractIdt (dat : List Nat) : Nat :=
  u16_from_be (dat.getD (ipHdrLen dat + 4) 0) (dat.getD (ipHdrLen dat + 5) 0)

/-- `Icmp::recv`: the read loop, modelled over the finite sequence of
successful `recv_from` results (source address and datagram bytes).  A
datagram too short for the identifier slice would make the Rust slice
index panic (`none`); a non-matching identifier makes the loop
`continue`; a match is decoded and returned with the receive length and
source address.  An exhausted list models a read that never returns. -/
def Icmp.recv (ic : Icmp) : List (SockAddr × List Nat) → Option (Nat × SockAddr × Response)
  | [] => none
  | (addr, dat) :: rest =>
    if dat.length < ipHdrLen dat + 6 then none
    else if extractIdt dat = ic.idt then
      (Response.decode (dat.drop (ipHdrLen dat))).map fun r => (dat.length, addr, r)
    else Icmp.recv ic rest

/-- A sample constructed session used to instantiate theorems on
concrete inputs. -/
def sampleIcmp : Icmp :=
  { sock := 0, dst := [], ver := .V4, typ := 8, idt := 9, seq := 0
    dat := List.replicate 56 0 }

theorem shiftRight16_eq (s : Nat) : s >>> 16 = s / 65536 := by
  rw [Nat.shiftRight_eq_div_pow]

theorem foldCarryAux_lt : ∀ fuel s, s ≤ fuel → foldCarryAux fuel s < 65536
  | 0, s, h => by
    simp only [foldCarryAux]
    omega
  | fuel + 1, s, h => by
    rw [foldCarryAux]
    split
    · next h0 =>
      rw [shiftRight16_eq] at h0
      omega
    · next h0 =>
      apply foldCarryAux_lt fuel
      rw [shiftRight16_eq] at h0 ⊢
      omega

theorem foldCarry_lt (s : Nat) : foldCarry s < 65536 :=
  foldCarryAux_lt s s le_rfl

theorem foldCarryAux_congr :
    ∀ f1 f2 s, s ≤ f1 → s ≤ f2 → foldCarryAux f1 s = foldCarryAux f2 s
  | 0, f2, s, h1, _ => by
    have hs : s = 0 := Nat.le_zero.mp h1
    subst hs
    cases f2 <;> simp [foldCarryAux]
  | _ + 1, 0, s, _, h2 => by
    have hs : s = 0 := Nat.le_zero.mp h2
    subst hs
    simp [foldCarryAux]
  | f1 + 1, f2 + 1, s, h1, h2 => by
    rw [foldCarryAux, foldCarryAux]
    split
    · rfl
    · next h0 =>
      have hlt : s >>> 16 + s % 65536 < s := by
        rw [shiftRight16_eq] at h0 ⊢
        omega
      exact foldCarryAux_congr f1 f2 _ (by omega) (by omega)

/-- `foldCarry` satisfies the exact `while sum >> 16 != 0` loop
equation of the source. -/
theorem foldCarry_eq (s : Nat) :
    foldCarry s = if s >>> 16 = 0 then s else foldCarry (s >>> 16 + s % 65536) := by
  unfold foldCarry
  cases s with
  | zero => simp [foldCarryAux]
  | succ k =>
    rw [foldCarryAux]
    split
    · rfl
    · next h0 =>
      have hlt : (k + 1) >>> 16 + (k + 1) % 65536 < k + 1 := by
        rw [shiftRight16_eq] at h0 ⊢
        omega
      exact foldCarryAux_congr k _ _ (by omega) le_rfl

theorem checksum_lt (bytes : List Nat) : checksum bytes < 65536 :=
  Nat.mod_lt _ (by omega)

theorem send_okSend (ic : Icmp) :
    ic.send okSend = some (ic.sendBuf.length, { ic with seq := (ic.seq + 1) % MAXSEQ }) :=
  rfl

theorem sendIter_seq (ic : Icmp) (h : ic.seq < 65535) :
    ∀ n, (ic.sendIter n).seq = (ic.seq + n) % 65535
  | 0 => by
    simp only [Icmp.sendIter]
    omega
  | n + 1 => by
    rw [Icmp.sendIter, send_okSend]
    simp only [MAXSEQ]
    rw [sendIter_seq ic h n]
    omega

/-- Spec-side carry folding, written from the spec's words: while the
bits above position 16 are non-zero, add the upper 16 bits back into
the lower 16 bits. -/
def foldCarrySpec (s : Nat) : Nat :=
  if s / 65536 = 0 then s else foldCarrySpec (s / 65536 + s % 65536)
termination_by s
decreasing_by omega

/-- Spec-side checksum, written from the spec's words: partition the
buffer into consecutive 2-byte big-endian words (complete chunks only),
accumulate every word into a 32-bit sum except the word at index 1
(skipped unconditionally), fold the carries, and return the
one's-complement of the lower 16 bits. -/
def checksumSpec (bytes : List Nat) : Nat :=
  let words := toWords bytes
  let sum := (words.enum.filter fun p => p.1 ≠ 1).foldl
    (fun a p => (a + p.2) % 4294967296) 0
  65535 - foldCarrySpec sum % 65536

theorem foldCarry_eq_spec (s : Nat) : foldCarry s = foldCarrySpec s := by
  rw [foldCarry_eq, foldCarrySpec, shiftRight16_eq]
  split
  · rfl
  · next h0 => exact foldCarry_eq_spec _
termination_by s
decreasing_by omega

theorem sumWords_eq_foldl : ∀ (ws : List Nat) (i acc : Nat),
    sumWords i ws acc =
      ((ws.enumFrom i).filter fun p => p.1 ≠ 1).foldl
        (fun a p => (a + p.2) % 4294967296) acc
  | [], _, _ => rfl
  | w :: ws, i, acc => by
    rw [sumWords]
    by_cases h : i = 1
    · subst h
      simp [sumWords_eq_foldl ws (1 + 1) acc, List.enumFrom, List.filter_cons]
    · simp [sumWords_eq_foldl ws (i + 1) ((acc + w) % 4294967296),
        List.enumFrom, List.filter_cons, h]

theorem checksum_eq_checksumSpec (bytes : List Nat) :
    checksum bytes = checksumSpec bytes := by
  have hfold := foldCarry_eq_spec (sumWords 0 (toWords bytes) 0)
  have hlt := foldCarry_lt (sumWords 0 (toWords bytes) 0)
  simp only [checksum, checksumSpec, List.enum]
  rw [← sumWords_eq_foldl, ← hfold]
  omega

theorem toWords_snoc :
    ∀ (l : List Nat), l.length % 2 = 0 → ∀ c, toWords (l ++ [c]) = toWords l
  | [], _, _ => rfl
  | [_], h, _ => by simp at h
  | a :: b :: rest, h, c => by
    have ih := toWords_snoc rest (by simp at h; omega) c
    simp [toWords, ih]

/-- Claim C1 (amended): a successful `send` increments the session's
sequence counter modulo 65535 (`MAXSEQ = u16::MAX`), not modulo 65536:
starting from sequence 0, after `n` successful sends the sequence is
`n % 65535`, so after exactly 65535 sends it is 0 again, each value
0..65534 is taken exactly once per cycle, the value 65535 is never
taken, and no error is signalled at wraparound. -/
theorem send_seq_increments_mod_65535 (ic : Icmp) (h0 : ic.seq = 0) (n : Nat) :
    (ic.sendIter n).seq = n % 65535 := by
  rw [sendIter_seq ic (by omega) n, h0]
  omega

/-- Witness for C1's amended theorem at a concrete session and count. -/
theorem send_seq_increments_mod_65535_witness :
    (sampleIcmp.sendIter 5).seq = 5 % 65535 :=
  send_seq_increments_mod_65535 sampleIcmp rfl 5

/-- Counterexample to C1 as stated: after 65536 successful sends from
sequence 0 the counter is 1, not 0, because the source wraps with
`(self.seq + 1) % MAXSEQ` and `MAXSEQ` is 65535. -/
theorem send_seq_not_mod_65536 : (sampleIcmp.sendIter 65536).seq ≠ 0 := by
  rw [sendIter_seq sampleIcmp (by decide) 65536]
  decide

/-- Claim C2: decoding fewer than 8 bytes fails (the malformed-input
condition, a panic in the Rust, modelled as `none`), and decoding any
buffer of at least 8 bytes succeeds. -/
theorem decode_requires_eight_bytes (bytes : List Nat) :
    (bytes.length < 8 → Response.decode bytes = none) ∧
    (8 ≤ bytes.length → (Response.decode bytes).isSome = true) := by
  constructor
  · intro h
    unfold Response.decode
    rw [if_neg (by omega)]
  · intro h
    unfold Response.decode
    rw [if_pos h]
    rfl

/-- Witness for C2 at a 7-byte and an 8-byte buffer. -/
theorem decode_requires_eight_bytes_witness :
    Response.decode [1, 2, 3, 4, 5, 6, 7] = none ∧
    (Response.decode [8, 0, 0, 0, 0, 1, 0, 2]).isSome = true :=
  ⟨(decode_requires_eight_bytes [1, 2, 3, 4, 5, 6, 7]).1 (by decide),
   (decode_requires_eight_bytes [8, 0, 0, 0, 0, 1, 0, 2]).2 (by decide)⟩

/-- Counterexample to C3 as stated: with the IPv6 family, when the raw
socket is created and the address resolves, construction succeeds — it
returns `Ok` with a session (whose echo type is the IPv4 value 8)
instead of failing. -/
theorem new_v6_succeeds_counterexample :
    Icmp.new .V6 "2001:db8::1" 7 none (fun _ => some 3) (fun _ _ => some [1]) =
      .ok { sock := 3, dst := [1], ver := .V6, typ := 8, idt := 7, seq := 0,
            dat := List.replicate 56 0 } := by
  decide

/-- Claim C3 (amended): constructing a session with the IPv6 address
family is not rejected: whenever raw-socket creation and address
resolution succeed, construction succeeds for every destination string
and payload length, yielding a session whose echo type is the IPv4
value 8; no immediate fatal error is raised for the unsupported
family. -/
theorem new_v6_constructs (dst : String) (idt : Nat) (len : Option Nat)
    (sockNew : Version → Option Nat) (resolve : Version → String → Option SockAddr)
    (sock : Nat) (a : SockAddr)
    (hs : sockNew .V6 = some sock) (hr : resolve .V6 dst = some a) :
    Icmp.new .V6 dst idt len sockNew resolve =
      .ok { sock := sock, dst := a, ver := .V6, typ := 8, idt := idt % 65536,
            seq := 0, dat := List.replicate (len.getD DEFDATALEN) 0 } := by
  unfold Icmp.new
  rw [hs, hr]

/-- Witness for C3's amended theorem at concrete OS effects. -/
theorem new_v6_constructs_witness :
    Icmp.new .V6 "example.com" 70000 (some 4)
        (fun _ => some 5) (fun _ _ => some [9, 9]) =
      .ok { sock := 5, dst := [9, 9], ver := .V6, typ := 8, idt := 70000 % 65536,
            seq := 0, dat := List.replicate ((some 4).getD DEFDATALEN) 0 } :=
  new_v6_constructs "example.com" 70000 (some 4) (fun _ => some 5)
    (fun _ _ => some [9, 9]) 5 [9, 9] rfl rfl

/-- Claim C4: the checksum equals the spec's reference algorithm
(2-byte big-endian words, 32-bit accumulation skipping word index 1,
carry folding, one's-complement of the low 16 bits); the word at index
1 is skipped regardless of its content; and a trailing odd byte is
ignored. -/
theorem checksum_spec_conform :
    (∀ bytes, checksum bytes = checksumSpec bytes) ∧
    (∀ b0 b1 x y x2 y2 rest,
      checksum (b0 :: b1 :: x :: y :: rest) =
        checksum (b0 :: b1 :: x2 :: y2 :: rest)) ∧
    (∀ bytes c, bytes.length % 2 = 0 → checksum (bytes ++ [c]) = checksum bytes) := by
  refine ⟨checksum_eq_checksumSpec, ?_, ?_⟩
  · intro b0 b1 x y x2 y2 rest
    simp [checksum, toWords, sumWords]
  · intro bytes c h
    unfold checksum
    rw [toWords_snoc bytes h c]

/-- Witness for C4 at a concrete odd-length buffer. -/
theorem checksum_spec_conform_witness : checksum [5, 6, 7] = checksum [5, 6] :=
  checksum_spec_conform.2.2 [5, 6] 7 (by decide)

/-- Counterexample to C5 as stated: the checksum of the spec's sample
packet is not 0xE5CB. -/
theorem checksum_sample_ne :
    checksum [0x08, 0, 0, 0, 0x12, 0x34, 0, 0x01, 0, 0, 0, 0, 0, 0, 0, 0] ≠ 0xE5CB := by
  decide

/-- Claim C5 (amended): the checksum of the 16-byte buffer
`08 00 00 00 12 34 00 01 00 00 00 00 00 00 00 00` equals 0xE5CA. -/
theorem checksum_sample_value :
    checksum [0x08, 0, 0, 0, 0x12, 0x34, 0, 0x01, 0, 0, 0, 0, 0, 0, 0, 0] = 0xE5CA := by
  decide

/-- Claim C6: decoding the encoded-and-checksum-patched wire bytes
recovers type, code 0, identifier, sequence, and payload exactly, and
the recovered checksum field is the value the caller patched in. -/
theorem decode_encode_roundtrip (typ idt seq : Nat) (dat : List Nat)
    (ht : typ < 256) (hi : idt < 65536) (hs : seq < 65536) :
    Response.decode (patch (encode typ idt seq dat)) =
      some { typ := typ, cod := 0, sum := checksum (encode typ idt seq dat),
             idt := idt, seq := seq, dat := dat } := by
  have hc : checksum (encode typ idt seq dat) < 65536 := checksum_lt _
  have hbuf : patch (encode typ idt seq dat) =
      typ % 256 :: 0 :: (checksum (encode typ idt seq dat) % 65536 / 256) ::
        (checksum (encode typ idt seq dat) % 256) ::
        (idt % 65536 / 256) :: (idt % 256) ::
        (seq % 65536 / 256) :: (seq % 256) :: dat := rfl
  rw [hbuf]
  unfold Response.decode
  rw [if_pos (by simp)]
  rw [Option.some.injEq, Response.mk.injEq]
  refine ⟨Nat.mod_eq_of_lt ht, rfl, ?_, ?_, ?_, rfl⟩
  · show u16_from_be (checksum (encode typ idt seq dat) % 65536 / 256)
        (checksum (encode typ idt seq dat) % 256) = checksum (encode typ idt seq dat)
    unfold u16_from_be
    omega
  · show u16_from_be (idt % 65536 / 256) (idt % 256) = idt
    unfold u16_from_be
    omega
  · show u16_from_be (seq % 65536 / 256) (seq % 256) = seq
    unfold u16_from_be
    omega

/-- Witness for C6 at a concrete packet. -/
theorem decode_encode_roundtrip_witness :
    Response.decode (patch (encode 8 0x1234 1 [7, 7])) =
      some { typ := 8, cod := 0, sum := checksum (encode 8 0x1234 1 [7, 7]),
             idt := 0x1234, seq := 1, dat := [7, 7] } :=
  decode_encode_roundtrip 8 0x1234 1 [7, 7] (by decide) (by decide) (by decide)

/-- Claim C7: the encoded request has length exactly 8 + payload
length (`serialize_len`), and encoding is total: `send` fails exactly
when the socket transmit fails, never in the encoding itself. -/
theorem send_length_and_totality (ic : Icmp) :
    ic.sendBuf.length = ic.serialize_len ∧
    ic.serialize_len = 8 + ic.dat.length ∧
    ∀ sockSend, (ic.send sockSend).isNone = (sockSend ic.sendBuf ic.dst).isNone := by
  refine ⟨?_, rfl, ?_⟩
  · simp only [Icmp.sendBuf, patch, List.length_set, Icmp.rawBuf, encode, put_u16,
      List.length_cons, List.length_append, List.length_nil, Icmp.serialize_len]
    omega
  · intro sockSend
    unfold Icmp.send
    cases sockSend ic.sendBuf ic.dst <;> rfl

/-- Claim C8: the receive loop silently discards every datagram whose
extracted identifier (big-endian bytes 4-5 of the ICMP header at offset
`4 * (first_byte & 0xf)`) does not match the session's, never signalling
an error for a mismatch, and returns the decoded reply of the first
matching datagram. -/
theorem recv_filters_by_identifier (ic : Icmp) (ds : List (SockAddr × List Nat)) :
    ∀ n : Nat, n < ds.length →
    (∀ i, i < n → ipHdrLen (ds.getD i ([], [])).2 + 6 ≤ (ds.getD i ([], [])).2.length ∧
        extractIdt (ds.getD i ([], [])).2 ≠ ic.idt) →
    ipHdrLen (ds.getD n ([], [])).2 + 8 ≤ (ds.getD n ([], [])).2.length →
    extractIdt (ds.getD n ([], [])).2 = ic.idt →
    ∃ r, Response.decode
        ((ds.getD n ([], [])).2.drop (ipHdrLen (ds.getD n ([], [])).2)) = some r ∧
      ic.recv ds = some ((ds.getD n ([], [])).2.length, (ds.getD n ([], [])).1, r) := by
  induction ds with
  | nil => intro n hn _ _ _; simp at hn
  | cons hd rest ih =>
    intro n hn hmis hlen hmatch
    obtain ⟨addr, dat⟩ := hd
    cases n with
    | zero =>
      simp only [List.getD_cons_zero] at hlen hmatch ⊢
      have hx : 8 ≤ (dat.drop (ipHdrLen dat)).length := by
        simp only [List.length_drop]
        omega
      have hsome : (Response.decode (dat.drop (ipHdrLen dat))).isSome = true := by
        unfold Response.decode
        rw [if_pos hx]
        rfl
      obtain ⟨r, hr⟩ := Option.isSome_iff_exists.mp hsome
      refine ⟨r, hr, ?_⟩
      simp only [Icmp.recv]
      rw [if_neg (by omega), if_pos hmatch, hr]
      rfl
    | succ m =>
      simp only [List.getD_cons_succ] at hlen hmatch ⊢
      have h0 := hmis 0 (Nat.succ_pos m)
      simp only [List.getD_cons_zero] at h0
      simp only [Icmp.recv]
      rw [if_neg (by omega), if_neg h0.2]
      refine ih m (by simp at hn; omega) ?_ hlen hmatch
      intro i hi
      have hmi := hmis (i + 1) (by omega)
      simpa using hmi

/-- A concrete receive scenario for the C8 witness: two datagrams with
20-byte IPv4 headers, the first carrying identifier 5, the second
carrying `sampleIcmp`'s identifier 9. -/
def sampleDatagrams : List (SockAddr × List Nat) :=
  [([1], 0x45 :: (List.replicate 19 0 ++ [0, 0, 0, 0, 0, 5, 0, 1])),
   ([2], 0x45 :: (List.replicate 19 0 ++ [0, 0, 0, 0, 0, 9, 0, 1]))]

/-- Witness for C8: the first datagram is discarded, the second (n = 1)
is decoded and returned. -/
theorem recv_filters_by_identifier_witness :
    ∃ r, Response.decode
        ((sampleDatagrams.getD 1 ([], [])).2.drop
          (ipHdrLen (sampleDatagrams.getD 1 ([], [])).2)) = some r ∧
      sampleIcmp.recv sampleDatagrams =
        some ((sampleDatagrams.getD 1 ([], [])).2.length,
          (sampleDatagrams.getD 1 ([], [])).1, r) :=
  recv_filters_by_identifier sampleIcmp sampleDatagrams 1 (by decide)
    (fun i hi => by
      have hi0 : i = 0 := by omega
      subst hi0
      exact ⟨by decide, by decide⟩)
    (by decide) (by decide)

/-- Claim C9: a successful `send` mutates only the sequence counter;
payload buffer, identifier, destination, version, type, and socket
handle are unchanged. -/
theorem send_mutates_only_seq (ic : Icmp)
    (sockSend : List Nat → SockAddr → Option Nat) (len : Nat)
    (h : sockSend ic.sendBuf ic.dst = some len) :
    ∃ ic2, ic.send sockSend = some (len, ic2) ∧
      ic2.seq = (ic.seq + 1) % MAXSEQ ∧ ic2.dat = ic.dat ∧ ic2.idt = ic.idt ∧
      ic2.dst = ic.dst ∧ ic2.ver = ic.ver ∧ ic2.typ = ic.typ ∧
      ic2.sock = ic.sock := by
  refine ⟨{ ic with seq := (ic.seq + 1) % MAXSEQ }, ?_, rfl, rfl, rfl, rfl, rfl,
    rfl, rfl⟩
  unfold Icmp.send
  rw [h]

/-- Witness for C9 at a concrete session and transmit result. -/
theorem send_mutates_only_seq_witness :
    ∃ ic2, sampleIcmp.send (fun _ _ => some 64) = some (64, ic2) ∧
      ic2.seq = (sampleIcmp.seq + 1) % MAXSEQ ∧ ic2.dat = sampleIcmp.dat ∧
      ic2.idt = sampleIcmp.idt ∧ ic2.dst = sampleIcmp.dst ∧
      ic2.ver = sampleIcmp.ver ∧ ic2.typ = sampleIcmp.typ ∧
      ic2.sock = sampleIcmp.sock :=
  send_mutates_only_seq sampleIcmp (fun _ _ => some 64) 64 rfl

/-- Claim C10: a constructed session starts with sequence 0, and after
any number of successful sends the sequence stays strictly below 65535,
so the `self.seq + 1` computed inside `send` never exceeds a 16-bit
integer. -/
theorem new_seq_invariant (ver : Version) (dst : String) (idt : Nat)
    (len : Option Nat) (sockNew : Version → Option Nat)
    (resolve : Version → String → Option SockAddr) (ic : Icmp)
    (hok : Icmp.new ver dst idt len sockNew resolve = .ok ic) (n : Nat) :
    ic.seq = 0 ∧ (ic.sendIter n).seq < 65535 ∧ (ic.sendIter n).seq + 1 < 65536 := by
  have hseq : ic.seq = 0 := by
    revert hok
    unfold Icmp.new
    cases sockNew ver with
    | none => intro hok; simp at hok
    | some s =>
      cases resolve ver dst with
      | none => intro hok; simp at hok
      | some a =>
        intro hok
        injection hok with h
        subst h
        rfl
  have h35 := sendIter_seq ic (by omega) n
  refine ⟨hseq, ?_, ?_⟩ <;> rw [h35] <;> omega

/-- Witness for C10 at a concretely constructed session. -/
theorem new_seq_invariant_witness :
    sampleIcmp.seq = 0 ∧ (sampleIcmp.sendIter 3).seq < 65535 ∧
      (sampleIcmp.sendIter 3).seq + 1 < 65536 :=
  new_seq_invariant .V4 "localhost" 9 (some 56) (fun _ => some 0)
    (fun _ _ => some []) sampleIcmp (by decide) 3

end Icmpp
